import Mathlib

/-!
Shallow embedding of the core data-reconciliation and merge engine of the
White-River-Basin-Dam-Water-Levels scraper (fetch-norfork.js and its
revisions in src/unnamed/part_002), together with proofs of the spec's
testable properties.

Conventions of the embedding:
* JavaScript numbers that flow through the pipeline are modelled as `ℚ`
  (the readings are finite decimals; NaN never reaches the modelled code
  because unparseable readings are dropped by the excluded adapter layer).
* `Math.round` is `jsRound`: round half toward positive infinity.
* `new Date(s).getTime()` is an abstract parse `p : String → Option ℤ`
  (`none` models an invalid date, whose comparisons are all false in JS).
* The storage-curve functions use `ℝ` with real exponentiation `rpow`,
  the idealised model of `Math.pow` on floats; their string formatting
  (`toFixed`, `toLocaleString`) is dropped and the numeric value is kept.
-/

namespace WhiteRiver

/-- Model of a JavaScript field value as stored in a DamRecord object:
a string, a number, a boolean, or null. -/
inductive JsVal where
  | str (s : String)
  | num (q : ℚ)
  | boolVal (b : Bool)
  | null
deriving DecidableEq

/-- A field counts toward the merge completeness comparison when
`v && v !== '0' && v !== 'N/A'` holds in JS: truthy (non-null, non-empty,
nonzero, not false) and not the placeholder strings "0" or "N/A"
(fetch-norfork.js lines 740-741). -/
def informative : JsVal → Bool
  | .str s => !(s == "") && !(s == "0") && !(s == "N/A")
  | .num q => !(q == 0)
  | .boolVal b => b
  | .null => false

/-- A persisted DamRecord as the History Merger sees it: the `timestamp`
field (the original source timestamp, the dedup/merge key) plus the other
field values of the JS object.  `Object.values` of the JS record consists
of the timestamp string together with `fields`. -/
structure DamRecord where
  timestamp : String
  fields : List JsVal
deriving DecidableEq

/-- Number of informative fields of a record:
`Object.values(entry).filter(v => v && v !== '0' && v !== 'N/A').length`. -/
def infoCount (r : DamRecord) : ℕ :=
  (JsVal.str r.timestamp :: r.fields).countP (fun v => informative v)

/-- JS `new Date(a) > new Date(b)` on parsed instants: false whenever either
date is invalid (NaN comparison). -/
def jsDateGt (a b : Option ℤ) : Bool :=
  match a, b with
  | some x, some y => decide (y < x)
  | _, _ => false

/-- JS `≥` on parsed instants, false whenever either date is invalid. -/
def jsDateGe (a b : Option ℤ) : Bool :=
  match a, b with
  | some x, some y => decide (y ≤ x)
  | _, _ => false

/-- The not-found branch of the merge loop (fetch-norfork.js lines 723-732):
scan for the first existing entry whose parsed instant is strictly older
than the new record's, and splice the new record in before it (at the end
when no entry is older). -/
def insertRecord (p : String → Option ℤ) (r : DamRecord) :
    List DamRecord → List DamRecord
  | [] => [r]
  | e :: rest =>
    if jsDateGt (p r.timestamp) (p e.timestamp) then r :: e :: rest
    else e :: insertRecord p r rest

/-- The found branch of the merge loop (fetch-norfork.js lines 736-749):
the entry at `findIndex(d => d.timestamp === newTimestamp)` is replaced by
the new record exactly when the new record has strictly more informative
fields; otherwise the history is left untouched. -/
def replaceFirst : List DamRecord → DamRecord → List DamRecord
  | [], _ => []
  | e :: rest, r =>
    if e.timestamp = r.timestamp then
      (if infoCount e < infoCount r then r else e) :: rest
    else
      e :: replaceFirst rest r

/-- Predicate matching the merge key lookup
`d => d.timestamp === newTimestamp`. -/
def tsMatch (ts : String) (e : DamRecord) : Bool :=
  e.timestamp == ts

/-- One iteration of the merge loop body for a single freshly assembled
record against the existing history (fetch-norfork.js lines 716-750):
`findIndex(d => d.timestamp === newTimestamp)` selects the branch. -/
def mergeInto (p : String → Option ℤ) (hist : List DamRecord)
    (r : DamRecord) : List DamRecord :=
  if hist.any (tsMatch r.timestamp) then replaceFirst hist r
  else insertRecord p r hist

/-- The whole merge loop: `for (const newDataPoint of newDam.data) ...`
applied to the existing history. -/
def mergeAll (p : String → Option ℤ) (hist news : List DamRecord) :
    List DamRecord :=
  news.foldl (mergeInto p) hist

/-- A record is covered by a history when the first entry carrying its
timestamp is at least as informative; such a record merges as a no-op. -/
def covered (hist : List DamRecord) (r : DamRecord) : Prop :=
  ∃ e, hist.find? (tsMatch r.timestamp) = some e ∧ infoCount r ≤ infoCount e

/-- Existing record for the completeness-wins scenario, 5 informative
fields counting its timestamp (the strings "0" and "N/A" and the null do
not count; "0.00" does). -/
def damE5 : DamRecord :=
  { timestamp := "2025-06-10T15:00:00.000Z"
    fields := [JsVal.str "10.06.2025", JsVal.str "552.31", JsVal.str "0",
      JsVal.str "N/A", JsVal.num 120, JsVal.str "0.00", JsVal.null] }

/-- New record for the same source timestamp with 7 informative fields. -/
def damR7 : DamRecord :=
  { timestamp := "2025-06-10T15:00:00.000Z"
    fields := [JsVal.str "10.06.2025", JsVal.str "552.40", JsVal.num 120,
      JsVal.str "0.12", JsVal.str "37", JsVal.boolVal true, JsVal.null] }

/-- New record for the same source timestamp with 4 informative fields. -/
def damR4 : DamRecord :=
  { timestamp := "2025-06-10T15:00:00.000Z"
    fields := [JsVal.str "10.06.2025", JsVal.str "552.20", JsVal.num 5,
      JsVal.str "0", JsVal.null] }

/-- Histories as persisted are ordered newest-first: each entry's parsed
source instant is at least the next entry's. -/
def sortedByInstantDesc (p : String → Option ℤ) (l : List DamRecord) : Prop :=
  List.Chain' (fun a b => jsDateGe (p a.timestamp) (p b.timestamp) = true) l

/-- Concrete parse function for the C3 witness. -/
def parseW (s : String) : Option ℤ :=
  if s = "t3" then some 3 else if s = "t2" then some 2
  else if s = "t1" then some 1 else none

/-- First pass of `processIncrementalRainfall` (src/unnamed/part_002 lines
1448-1456): forward-fill the cumulative precipitation series over the
chronologically sorted timestamp list, carrying the last known value into
missing slots; timestamps before the first known value stay absent.  The
result lists, in order, the (timestamp, cumulative value) pairs present in
the filled map (pass two of the source iterates the sorted timestamps and
skips keys absent from the filled map, which is the same traversal). -/
def forwardFillList (m : String → Option ℚ) :
    List String → Option ℚ → List (String × ℚ)
  | [], _ => []
  | t :: ts, last =>
    match m t with
    | some v => (t, v) :: forwardFillList m ts (some v)
    | none =>
      match last with
      | some v => (t, v) :: forwardFillList m ts (some v)
      | none => forwardFillList m ts none

/-- Second pass of `processIncrementalRainfall` (src/unnamed/part_002 lines
1458-1491): consecutive differences of the filled cumulative series,
clamping negative deltas to zero; the first available reading (no previous
value) is assigned delta 0. -/
def incrementalPass : List (String × ℚ) → Option ℚ → List (String × ℚ)
  | [], _ => []
  | (t, v) :: rest, none => (t, 0) :: incrementalPass rest (some v)
  | (t, v) :: rest, some prev =>
    (t, max 0 (v - prev)) :: incrementalPass rest (some v)

/-- `processIncrementalRainfall(precipitationMap, allTimestamps)`
(src/unnamed/part_002 lines 1440-1495), with `m` the value lookup of the
precipitation map and the timestamp list already sorted ascending. -/
def processIncrementalRainfall (m : String → Option ℚ)
    (sortedTimestamps : List String) : List (String × ℚ) :=
  incrementalPass (forwardFillList m sortedTimestamps none) none

/-- Cumulative precipitation lookup for the C6 witness. -/
def precipW (t : String) : Option ℚ :=
  if t = "a" then some 5 else if t = "b" then some 3 else none

/-- JS `Map.set`: update the entry for the key in place (a JS Map holds one
slot per key), appending a fresh entry when the key is absent. -/
def mapSet {α β : Type} [DecidableEq α] (k : α) (v : β) :
    List (α × β) → List (α × β)
  | [] => [(k, v)]
  | p :: rest => if p.1 = k then (k, v) :: rest else p :: mapSet k v rest

/-- JS `Map.get`, on the association-list model of a Map. -/
def mapFind {α β : Type} [DecidableEq α] (k : α) (m : List (α × β)) :
    Option (α × β) :=
  m.find? (fun pr => decide (pr.1 = k))

/-- The hour-bucket key of `fetchUSACEData` (fetch-norfork.js lines
361-364): shift the epoch-millisecond instant back 5 hours (18000000 ms,
the fixed Central-time offset) and truncate to the hour (3600000 ms).  Two
instants fall in the same local clock hour exactly when they share this
key; the year-month-day-hour string the source renders from it is an
injective image of this number for the epochs in play. -/
def hourKey (t : ℕ) : ℕ :=
  (t - 18000000) / 3600000

/-- The per-metric map construction of `fetchUSACEData` (fetch-norfork.js
lines 358-368): each provider reading `(timestamp, value)` is written into
the map slot of its hour key, overwriting whatever an earlier reading in
the array put there. -/
def buildDataMap (values : List (ℕ × ℚ)) : List (ℕ × (ℚ × ℕ)) :=
  values.foldl (fun acc tv => mapSet (hourKey tv.1) (tv.2, tv.1) acc) []

/-- JS `Math.round`: round half toward positive infinity. -/
def jsRound (q : ℚ) : ℤ := (q + 1 / 2).floor

/-- JS `Math.round` on the real-number model of floats. -/
noncomputable def jsRoundR (x : ℝ) : ℤ := ⌊x + 1 / 2⌋

/-- The raw metric values `fetchDamData` reads from the per-metric maps for
one canonical timestamp (fetch-norfork.js lines 550-564); `none` models a
map miss for that timestamp. -/
structure RawInputs where
  waterLevel : Option ℚ
  inflow : Option ℚ
  outflow : Option ℚ
  spillway : Option ℚ
  power : Option ℚ
  storage : Option ℚ
  precipitation : Option ℚ
deriving DecidableEq

/-- Numeric content of an assembled data point (fetch-norfork.js lines
572-605).  String formatting (`toFixed`, `toString`, `toLocaleString`) is
dropped: each field keeps the numeric value the source formats. -/
structure AssembledRecord where
  waterLevel : ℚ
  liveStorage : ℤ
  inflow : ℤ
  powerHouseDischarge : ℤ
  spillwayRelease : ℤ
  totalOutflow : ℤ
  powerGeneration : ℤ
  rainfall : ℚ
  netFlow : ℤ
  turbineEfficiency : ℚ
deriving DecidableEq

/-- The record assembly step of `fetchDamData` for one timestamp
(fetch-norfork.js lines 558-607): absent metrics default to 0, the record
is skipped when the water level is missing, zero (JS falsy) or negative,
turbine flow is clamped at 0, and `liveStorage` stores the rounded raw
storage-series reading. -/
def assembleRecord (inp : RawInputs) : Option AssembledRecord :=
  match inp.waterLevel with
  | none => none
  | some wl =>
    if wl ≤ 0 then none
    else
      let inflow := inp.inflow.getD 0
      let totalOutflow := inp.outflow.getD 0
      let spillwayFlow := inp.spillway.getD 0
      let powerGen := inp.power.getD 0
      let storageAcreFeet := inp.storage.getD 0
      let precipitation := inp.precipitation.getD 0
      let turbineFlow := max 0 (totalOutflow - spillwayFlow)
      some
        { waterLevel := wl
          liveStorage := jsRound storageAcreFeet
          inflow := jsRound inflow
          powerHouseDischarge := jsRound turbineFlow
          spillwayRelease := jsRound spillwayFlow
          totalOutflow := jsRound totalOutflow
          powerGeneration := jsRound powerGen
          rainfall := precipitation
          netFlow := jsRound (inflow - totalOutflow)
          turbineEfficiency :=
            if 0 < turbineFlow then powerGen / turbineFlow else 0 }

/-- Numeric dam specification: the `parseFloat` values of the fields the
storage calculations read from the `damSpecs` table (fetch-norfork.js
lines 25-141). -/
structure DamSpecN where
  MWL : ℚ
  FRL : ℚ
  floodPool : ℚ
  deadStorageLevel : ℚ
deriving DecidableEq

/-- Norfork entry of the damSpecs table. -/
def norforkSpec : DamSpecN :=
  { MWL := 580, FRL := 552, floodPool := 580, deadStorageLevel := 380 }

/-- Bull Shoals entry of the damSpecs table. -/
def bullshoalsSpec : DamSpecN :=
  { MWL := 695, FRL := 654, floodPool := 695, deadStorageLevel := 448 }

/-- Greers Ferry entry of the damSpecs table. -/
def greersferrySpec : DamSpecN :=
  { MWL := 470, FRL := 462, floodPool := 470, deadStorageLevel := 380 }

/-- Table Rock entry of the damSpecs table. -/
def tablerockSpec : DamSpecN :=
  { MWL := 931, FRL := 915, floodPool := 931, deadStorageLevel := 820 }

/-- Beaver entry of the damSpecs table. -/
def beaverSpec : DamSpecN :=
  { MWL := 1130, FRL := 1120, floodPool := 1130, deadStorageLevel := 1000 }

/-- The `damSpecs` name-keyed lookup (fetch-norfork.js lines 25-141). -/
def damSpecsQ (damName : String) : Option DamSpecN :=
  if damName = "norfork" then some norforkSpec
  else if damName = "bullshoals" then some bullshoalsSpec
  else if damName = "greersferry" then some greersferrySpec
  else if damName = "tablerock" then some tablerockSpec
  else if damName = "beaver" then some beaverSpec
  else none

/-- The per-dam storage-curve exponent (fetch-norfork.js line 212):
2.5 for Bull Shoals, 2.3 for Table Rock, 2.2 otherwise. -/
def damExponent (damName : String) : ℚ :=
  if damName = "bullshoals" then 5 / 2
  else if damName = "tablerock" then 23 / 10
  else 11 / 5

/-- `calculateStoragePercentage` (fetch-norfork.js lines 198-229), as the
numeric value the source formats with `toFixed(2)`: the initial
`!waterLevel` falsy guard is the `waterLevel = 0` case; below the flood
pool the depth ratio is raised to the dam exponent and clamped into
[0, 100]; above it a surcharge band adds up to 15 points, capped at 115. -/
noncomputable def calculateStoragePercentage (waterLevel : ℝ)
    (specs : DamSpecN) (damName : String) : ℝ :=
  if waterLevel = 0 then 0
  else if waterLevel ≤ (specs.deadStorageLevel : ℝ) then 0
  else if waterLevel ≤ (specs.floodPool : ℝ) then
    max 0 (min 100
      (((waterLevel - specs.deadStorageLevel) /
          ((specs.floodPool : ℝ) - specs.deadStorageLevel)) ^
            ((damExponent damName : ℚ) : ℝ) * 100))
  else if 0 < (specs.MWL : ℝ) - specs.floodPool then
    min 115 (100 +
      min 1 ((waterLevel - specs.floodPool) /
        ((specs.MWL : ℝ) - specs.floodPool)) * 15)
  else 100

/-- The per-dam flood-pool storage constant of `calculateLiveStorage`
(fetch-norfork.js lines 242-257). -/
def floodPoolStorageZ (damName : String) : ℤ :=
  if damName = "bullshoals" then 5760000
  else if damName = "greersferry" then 1400000
  else if damName = "tablerock" then 3462000
  else if damName = "beaver" then 2250000
  else 2580000

/-- `calculateLiveStorage` (fetch-norfork.js lines 232-279), as the
integer the source renders with `toLocaleString`: the flood-pool storage
constant scaled by the depth-ratio curve below the flood pool, plus a
surcharge band above it.  Defined by the source but not called during
record assembly in this revision. -/
noncomputable def calculateLiveStorage (waterLevel : ℝ) (specs : DamSpecN)
    (damName : String) : ℤ :=
  if waterLevel = 0 then 0
  else if waterLevel ≤ (specs.deadStorageLevel : ℝ) then 0
  else if waterLevel ≤ (specs.floodPool : ℝ) then
    jsRoundR ((floodPoolStorageZ damName : ℝ) *
      ((waterLevel - specs.deadStorageLevel) /
        ((specs.floodPool : ℝ) - specs.deadStorageLevel)) ^
          ((damExponent damName : ℚ) : ℝ))
  else if 0 < waterLevel - (specs.floodPool : ℝ) then
    floodPoolStorageZ damName +
      jsRoundR ((floodPoolStorageZ damName : ℝ) * (15 / 100) *
        min 1 ((waterLevel - specs.floodPool) / 10))
  else floodPoolStorageZ damName

/-- A dam payload as `fetchDamData` returns it and as live.json stores it:
the identity and spec fields the snapshot publisher copies
(src/unnamed/part_002 lines 1815-1829) plus the record array.  `id` is the
numeric value of the decimal-string id the publisher keys and sorts by. -/
structure LiveDam where
  id : ℕ
  name : String
  officialName : String
  MWL : String
  FRL : String
  liveStorageAtFRL : String
  ruleLevel : String
  blueLevel : String
  orangeLevel : String
  redLevel : String
  latitude : ℚ
  longitude : ℚ
  data : List DamRecord
deriving DecidableEq

/-- The snapshot entry built for a freshly fetched dam
(src/unnamed/part_002 line 1828): the same fields with
`data: [dam.data[0]]`, the single newest record (the run's record lists
are newest-first and never empty: `fetchDamData` returns null instead). -/
def snapshotOf (dam : LiveDam) : LiveDam :=
  { dam with data := dam.data.take 1 }

/-- The live.json rebuild of `fetchDamDetails` (src/unnamed/part_002 lines
1796-1843): existing snapshot entries are loaded into an id-keyed map,
entries for freshly fetched dams overwrite their slot or are appended, and
the map's values are written back sorted by id (JS stable sort on
`parseInt(id)`). -/
def buildLive (existingDams dams : List LiveDam) : List LiveDam :=
  ((dams.map snapshotOf).foldl (fun acc d => mapSet d.id d acc)
      (existingDams.foldl (fun acc d => mapSet d.id d acc) [])).map
    Prod.snd |>.mergeSort (fun a b => decide (a.id ≤ b.id))

/-- Norfork payload for the C8 witness: id 1, two records newest-first. -/
def liveA : LiveDam :=
  ⟨1, "Norfork", "NORFORK", "580.00", "552.00", "1,888,448", "510.00",
    "552.00", "570.00", "580.00", 36, -92, [⟨"tA2", []⟩, ⟨"tA1", []⟩]⟩

/-- Beaver snapshot entry for the C8 witness: id 2, not refreshed. -/
def liveB : LiveDam :=
  ⟨2, "Beaver", "BEAVER", "1130.00", "1120.00", "1,590,000", "1080.00",
    "1120.00", "1125.00", "1130.00", 36, -93, [⟨"tB1", []⟩]⟩

lemma find_insertRecord_self (p : String → Option ℤ) (r : DamRecord)
    (hist : List DamRecord) (h : ∀ e ∈ hist, e.timestamp ≠ r.timestamp) :
    (insertRecord p r hist).find? (tsMatch r.timestamp) = some r := by
  induction hist with
  | nil => simp [insertRecord, tsMatch]
  | cons e rest ih =>
    by_cases hgt : jsDateGt (p r.timestamp) (p e.timestamp)
    · simp only [insertRecord, if_pos hgt]
      exact List.find?_cons_of_pos _ (by simp [tsMatch])
    · simp only [insertRecord, if_neg hgt]
      rw [List.find?_cons_of_neg _ (by simp [tsMatch]; exact h e (by simp))]
      exact ih fun x hx => h x (List.mem_cons_of_mem _ hx)

lemma find_insertRecord_other (p : String → Option ℤ) (r : DamRecord)
    (ts : String) (hne : r.timestamp ≠ ts) (hist : List DamRecord) :
    (insertRecord p r hist).find? (tsMatch ts) = hist.find? (tsMatch ts) := by
  induction hist with
  | nil => simp [insertRecord, tsMatch, hne]
  | cons e rest ih =>
    by_cases hgt : jsDateGt (p r.timestamp) (p e.timestamp)
    · simp only [insertRecord, if_pos hgt]
      rw [List.find?_cons_of_neg _ (by simp [tsMatch, hne])]
    · simp only [insertRecord, if_neg hgt]
      by_cases he : tsMatch ts e
      · rw [List.find?_cons_of_pos _ he, List.find?_cons_of_pos _ he]
      · rw [List.find?_cons_of_neg _ he, List.find?_cons_of_neg _ he, ih]

lemma find_replaceFirst_same (r : DamRecord) (hist : List DamRecord)
    (e : DamRecord) (hfind : hist.find? (tsMatch r.timestamp) = some e) :
    (replaceFirst hist r).find? (tsMatch r.timestamp) =
      some (if infoCount e < infoCount r then r else e) := by
  induction hist with
  | nil => simp at hfind
  | cons x rest ih =>
    by_cases hx : x.timestamp = r.timestamp
    · rw [List.find?_cons_of_pos _ (by simp [tsMatch, hx])] at hfind
      obtain rfl : x = e := by injection hfind
      simp only [replaceFirst, if_pos hx]
      split
      · exact List.find?_cons_of_pos _ (by simp [tsMatch])
      · exact List.find?_cons_of_pos _ (by simp [tsMatch, hx])
    · rw [List.find?_cons_of_neg _ (by simp [tsMatch, hx])] at hfind
      simp only [replaceFirst, if_neg hx]
      rw [List.find?_cons_of_neg _ (by simp [tsMatch, hx])]
      exact ih hfind

lemma find_replaceFirst_other (r : DamRecord) (ts : String)
    (hne : r.timestamp ≠ ts) (hist : List DamRecord) :
    (replaceFirst hist r).find? (tsMatch ts) = hist.find? (tsMatch ts) := by
  induction hist with
  | nil => simp [replaceFirst]
  | cons x rest ih =>
    by_cases hx : x.timestamp = r.timestamp
    · simp only [replaceFirst, if_pos hx]
      have hxts : ¬ tsMatch ts x := by simp [tsMatch, hx, hne]
      split
      · rw [List.find?_cons_of_neg _ (by simp [tsMatch]; exact hne),
          List.find?_cons_of_neg _ hxts]
      · rfl
    · simp only [replaceFirst, if_neg hx]
      by_cases he : tsMatch ts x
      · rw [List.find?_cons_of_pos _ he, List.find?_cons_of_pos _ he]
      · rw [List.find?_cons_of_neg _ he, List.find?_cons_of_neg _ he, ih]

lemma replaceFirst_noop (r : DamRecord) (hist : List DamRecord)
    (e : DamRecord) (hfind : hist.find? (tsMatch r.timestamp) = some e)
    (hle : ¬ infoCount e < infoCount r) : replaceFirst hist r = hist := by
  induction hist with
  | nil => rfl
  | cons x rest ih =>
    by_cases hx : x.timestamp = r.timestamp
    · rw [List.find?_cons_of_pos _ (by simp [tsMatch, hx])] at hfind
      obtain rfl : x = e := by injection hfind
      simp only [replaceFirst, if_pos hx, if_neg hle]
    · rw [List.find?_cons_of_neg _ (by simp [tsMatch, hx])] at hfind
      simp only [replaceFirst, if_neg hx]
      rw [ih hfind]

lemma any_of_find (hist : List DamRecord) (ts : String) (e : DamRecord)
    (hfind : hist.find? (tsMatch ts) = some e) :
    hist.any (tsMatch ts) = true := by
  have : (hist.find? (tsMatch ts)).isSome := by rw [hfind]; rfl
  rw [List.find?_isSome] at this
  exact List.any_eq_true.mpr this

lemma covered_mergeInto_self (p : String → Option ℤ)
    (hist : List DamRecord) (r : DamRecord) :
    covered (mergeInto p hist r) r := by
  by_cases hany : hist.any (tsMatch r.timestamp) = true
  · have hsome : (hist.find? (tsMatch r.timestamp)).isSome :=
      List.find?_isSome.mpr (List.any_eq_true.mp hany)
    obtain ⟨e, he⟩ := Option.isSome_iff_exists.mp hsome
    rw [mergeInto, if_pos hany]
    refine ⟨_, find_replaceFirst_same r hist e he, ?_⟩
    split
    · exact le_refl _
    · exact le_of_not_lt (by assumption)
  · rw [mergeInto, if_neg hany]
    have hne : ∀ e ∈ hist, e.timestamp ≠ r.timestamp := by
      intro e hmem
      have := List.any_eq_false.mp (Bool.eq_false_iff.mpr hany) e hmem
      simpa [tsMatch] using this
    exact ⟨r, find_insertRecord_self p r hist hne, le_refl _⟩

lemma covered_mergeInto (p : String → Option ℤ) (hist : List DamRecord)
    (r r' : DamRecord) (hc : covered hist r) :
    covered (mergeInto p hist r') r := by
  obtain ⟨e, hfind, hle⟩ := hc
  by_cases hts : r'.timestamp = r.timestamp
  · have hfind' : hist.find? (tsMatch r'.timestamp) = some e := by
      rw [hts]; exact hfind
    have hany := any_of_find hist r'.timestamp e hfind'
    rw [mergeInto, if_pos hany]
    have := find_replaceFirst_same r' hist e hfind'
    rw [hts] at this
    refine ⟨_, this, ?_⟩
    split
    · exact le_trans hle (le_of_lt (by assumption))
    · exact hle
  · by_cases hany : hist.any (tsMatch r'.timestamp) = true
    · rw [mergeInto, if_pos hany]
      exact ⟨e, by rw [find_replaceFirst_other r' r.timestamp hts hist]; exact hfind, hle⟩
    · rw [mergeInto, if_neg hany]
      exact ⟨e, by rw [find_insertRecord_other p r' r.timestamp hts hist]; exact hfind, hle⟩

lemma covered_mergeAll (p : String → Option ℤ) (hist : List DamRecord)
    (l : List DamRecord) (r : DamRecord) (hc : covered hist r) :
    covered (mergeAll p hist l) r := by
  induction l generalizing hist with
  | nil => exact hc
  | cons n rest ih =>
    rw [mergeAll, List.foldl_cons]
    exact ih _ (covered_mergeInto p hist r n hc)

lemma covered_after_merge (p : String → Option ℤ) (hist : List DamRecord)
    (news : List DamRecord) (r : DamRecord) (hr : r ∈ news) :
    covered (mergeAll p hist news) r := by
  induction news generalizing hist with
  | nil => cases hr
  | cons n rest ih =>
    rw [mergeAll, List.foldl_cons]
    rcases List.mem_cons.mp hr with rfl | hmem
    · exact covered_mergeAll p _ rest r (covered_mergeInto_self p hist r)
    · exact ih _ hmem

lemma mergeInto_noop_of_covered (p : String → Option ℤ)
    (hist : List DamRecord) (r : DamRecord) (hc : covered hist r) :
    mergeInto p hist r = hist := by
  obtain ⟨e, hfind, hle⟩ := hc
  have hany := any_of_find hist r.timestamp e hfind
  rw [mergeInto, if_pos hany]
  exact replaceFirst_noop r hist e hfind (not_lt.mpr hle)

lemma mergeAll_noop_of_covered (p : String → Option ℤ)
    (hist : List DamRecord) (l : List DamRecord)
    (hcov : ∀ r ∈ l, covered hist r) : mergeAll p hist l = hist := by
  induction l with
  | nil => rfl
  | cons n rest ih =>
    rw [mergeAll, List.foldl_cons,
      mergeInto_noop_of_covered p hist n (hcov n (by simp))]
    exact ih fun r hr => hcov r (List.mem_cons_of_mem _ hr)

/-- C1.  Re-applying the merge loop (insert-if-absent by source timestamp,
replace-only-if-strictly-more-informative) to its own output is a no-op:
merging the same assembled record list into a DamHistory twice yields the
same DamHistory as merging it once. -/
theorem mergeAll_idempotent (p : String → Option ℤ)
    (hist news : List DamRecord) :
    mergeAll p (mergeAll p hist news) news = mergeAll p hist news :=
  mergeAll_noop_of_covered p _ news
    (fun r hr => covered_after_merge p hist news r hr)

lemma replaceFirst_split (l₁ l₂ : List DamRecord) (e r : DamRecord)
    (hts : e.timestamp = r.timestamp)
    (hfirst : ∀ x ∈ l₁, x.timestamp ≠ r.timestamp) :
    replaceFirst (l₁ ++ e :: l₂) r =
      l₁ ++ (if infoCount e < infoCount r then r else e) :: l₂ := by
  induction l₁ with
  | nil => simp [replaceFirst, hts]
  | cons x rest ih =>
    have hx : x.timestamp ≠ r.timestamp := hfirst x (by simp)
    simp only [List.cons_append, replaceFirst, if_neg hx]
    exact congrArg (List.cons x) (ih fun y hy => hfirst y (List.mem_cons_of_mem _ hy))

/-- C2.  Completeness-wins merge rule: when the history already holds a
record for the new record's source timestamp (first occurrence `e`, no
earlier entry matching), the merge replaces that record in place exactly
when the new record has strictly more informative fields, and otherwise
leaves the history entirely unchanged. -/
theorem merge_completeness_wins (p : String → Option ℤ)
    (l₁ l₂ : List DamRecord) (e r : DamRecord)
    (hts : e.timestamp = r.timestamp)
    (hfirst : ∀ x ∈ l₁, x.timestamp ≠ r.timestamp) :
    mergeInto p (l₁ ++ e :: l₂) r =
      if infoCount e < infoCount r then l₁ ++ r :: l₂ else l₁ ++ e :: l₂ := by
  have hany : (l₁ ++ e :: l₂).any (tsMatch r.timestamp) = true :=
    List.any_eq_true.mpr ⟨e, by simp, by simp [tsMatch, hts]⟩
  rw [mergeInto, if_pos hany, replaceFirst_split l₁ l₂ e r hts hfirst]
  split <;> rfl

/-- Witness for C2: against an existing record with 5 informative fields,
a 7-informative-field record for the same source timestamp replaces it,
and a 4-informative-field record leaves it unchanged. -/
theorem merge_completeness_wins_witness :
    mergeInto (fun _ => none) [damE5] damR7 = [damR7] ∧
    mergeInto (fun _ => none) [damE5] damR4 = [damE5] := by
  constructor
  · have h := merge_completeness_wins (fun _ => none) [] [] damE5 damR7 rfl
      (by simp)
    rw [if_pos (by decide)] at h
    simpa using h
  · have h := merge_completeness_wins (fun _ => none) [] [] damE5 damR4 rfl
      (by simp)
    rw [if_neg (by decide)] at h
    simpa using h

lemma insertRecord_head (p : String → Option ℤ) (r : DamRecord)
    (l : List DamRecord) :
    (insertRecord p r l).head? = some r ∨ (insertRecord p r l).head? = l.head? := by
  cases l with
  | nil => left; rfl
  | cons e rest =>
    by_cases hgt : jsDateGt (p r.timestamp) (p e.timestamp)
    · left; simp [insertRecord, hgt]
    · right; simp [insertRecord, hgt]

lemma insertRecord_sorted (p : String → Option ℤ) (r : DamRecord)
    (hr : (p r.timestamp).isSome) (l : List DamRecord)
    (hall : ∀ e ∈ l, (p e.timestamp).isSome)
    (hs : sortedByInstantDesc p l) :
    sortedByInstantDesc p (insertRecord p r l) := by
  induction l with
  | nil => simp [insertRecord, sortedByInstantDesc]
  | cons e rest ih =>
    obtain ⟨re, hre⟩ := Option.isSome_iff_exists.mp (hall e (by simp))
    obtain ⟨rr, hrr⟩ := Option.isSome_iff_exists.mp hr
    by_cases hgt : jsDateGt (p r.timestamp) (p e.timestamp)
    · simp only [insertRecord, if_pos hgt]
      rw [sortedByInstantDesc, List.chain'_cons]
      refine ⟨?_, hs⟩
      simp only [jsDateGt, hre, hrr, decide_eq_true_eq] at hgt
      simp only [jsDateGe, hre, hrr, decide_eq_true_eq]
      exact le_of_lt hgt
    · simp only [insertRecord, if_neg hgt]
      have hs' := List.chain'_cons'.mp hs
      rw [sortedByInstantDesc, List.chain'_cons']
      constructor
      · intro y hy
        rcases insertRecord_head p r rest with hh | hh
        · rw [hh] at hy
          obtain rfl : r = y := by simpa using hy
          simp only [jsDateGt, hre, hrr, decide_eq_true_eq] at hgt
          simp only [jsDateGe, hre, hrr, decide_eq_true_eq]
          exact le_of_not_lt hgt
        · rw [hh] at hy
          exact hs'.1 y hy
      · exact ih (fun x hx => hall x (List.mem_cons_of_mem _ hx)) hs'.2

/-- C3.  The merge preserves the newest-first ordering invariant: for a
history sorted by descending parsed source instant, merging a record whose
timestamp is not yet present (hence the insert branch, which scans for the
first entry with an older parsed instant) yields a history that is still
sorted newest-first. -/
theorem merge_insert_preserves_order (p : String → Option ℤ)
    (hist : List DamRecord) (r : DamRecord)
    (hr : (p r.timestamp).isSome)
    (hall : ∀ e ∈ hist, (p e.timestamp).isSome)
    (hs : sortedByInstantDesc p hist)
    (habsent : ∀ e ∈ hist, e.timestamp ≠ r.timestamp) :
    sortedByInstantDesc p (mergeInto p hist r) := by
  have hany : hist.any (tsMatch r.timestamp) = false := by
    rw [List.any_eq_false]
    intro e he
    simp only [tsMatch, beq_iff_eq]
    exact habsent e he
  rw [mergeInto, if_neg (by rw [hany]; simp)]
  exact insertRecord_sorted p r hr hist hall hs

/-- Witness for C3: inserting a record with instant 2 into the
newest-first history with instants 3 and 1 keeps the history sorted. -/
theorem merge_insert_preserves_order_witness :
    sortedByInstantDesc parseW
      (mergeInto parseW [⟨"t3", []⟩, ⟨"t1", []⟩] ⟨"t2", []⟩) := by
  refine merge_insert_preserves_order parseW [⟨"t3", []⟩, ⟨"t1", []⟩]
    ⟨"t2", []⟩ (by decide) ?_ ?_ ?_
  · intro e he
    fin_cases he <;> decide
  · rw [sortedByInstantDesc, List.chain'_cons]
    exact ⟨by decide, List.chain'_singleton _⟩
  · intro e he
    fin_cases he <;> decide

lemma incrementalPass_nonneg (l : List (String × ℚ)) (prev : Option ℚ) :
    ∀ pr ∈ incrementalPass l prev, 0 ≤ pr.2 := by
  induction l generalizing prev with
  | nil => intro pr h; cases h
  | cons x rest ih =>
    obtain ⟨t, v⟩ := x
    intro pr hpr
    cases prev with
    | none =>
      rcases List.mem_cons.mp hpr with rfl | hmem
      · exact le_refl 0
      · exact ih (some v) pr hmem
    | some q =>
      rcases List.mem_cons.mp hpr with rfl | hmem
      · exact le_max_left 0 _
      · exact ih (some v) pr hmem

/-- C6.  Incremental rainfall is non-negative and starts at zero: after
forward-filling the cumulative precipitation series and differencing it,
every incremental value is at least 0 (negative deltas are clamped), and
the delta assigned to the first available reading of the whole series is
exactly 0. -/
theorem processIncrementalRainfall_nonneg_first_zero
    (m : String → Option ℚ) (sortedTimestamps : List String) :
    (∀ pr ∈ processIncrementalRainfall m sortedTimestamps, 0 ≤ pr.2) ∧
    (∀ t v, (processIncrementalRainfall m sortedTimestamps).head? = some (t, v) →
      v = 0) := by
  constructor
  · exact incrementalPass_nonneg _ none
  · intro t v hhead
    rw [processIncrementalRainfall] at hhead
    cases hfill : forwardFillList m sortedTimestamps none with
    | nil => rw [hfill] at hhead; simp [incrementalPass] at hhead
    | cons x rest =>
      obtain ⟨t0, v0⟩ := x
      rw [hfill] at hhead
      simp only [incrementalPass, List.head?_cons] at hhead
      exact ((Prod.mk.injEq _ _ _ _).mp (Option.some.injEq _ _ ▸ hhead :
        (t0, (0 : ℚ)) = (t, v))).2.symm

/-- Witness for C6: on a concrete series with a counter reset the deltas
are all non-negative and the first one is zero. -/
theorem processIncrementalRainfall_witness :
    processIncrementalRainfall precipW ["a", "b", "c"] =
      [("a", 0), ("b", 0), ("c", 0)] ∧
    (∀ pr ∈ processIncrementalRainfall precipW ["a", "b", "c"], 0 ≤ pr.2) := by
  refine ⟨?_, ?_⟩
  · norm_num [processIncrementalRainfall, forwardFillList, incrementalPass,
      precipW, max_def]
  · exact (processIncrementalRainfall_nonneg_first_zero precipW ["a", "b", "c"]).1

lemma mapFind_mapSet_self {α β : Type} [DecidableEq α] (k : α) (v : β)
    (m : List (α × β)) : mapFind k (mapSet k v m) = some (k, v) := by
  induction m with
  | nil => simp [mapSet, mapFind]
  | cons p rest ih =>
    by_cases hp : p.1 = k
    · simp [mapSet, hp, mapFind]
    · simp only [mapSet, if_neg hp]
      rw [mapFind, List.find?_cons_of_neg _ (by simpa using hp)]
      exact ih

lemma mapFind_mapSet_other {α β : Type} [DecidableEq α] {j k : α} (v : β)
    (m : List (α × β)) (hne : j ≠ k) :
    mapFind j (mapSet k v m) = mapFind j m := by
  induction m with
  | nil => simp [mapSet, mapFind, Ne.symm hne]
  | cons p rest ih =>
    by_cases hp : p.1 = k
    · simp only [mapSet, if_pos hp]
      rw [mapFind, List.find?_cons_of_neg _ (by simpa using Ne.symm hne),
        mapFind, List.find?_cons_of_neg _ (by simp [hp, Ne.symm hne])]
    · simp only [mapSet, if_neg hp]
      by_cases hj : p.1 = j
      · rw [mapFind, List.find?_cons_of_pos _ (by simpa using hj),
          mapFind, List.find?_cons_of_pos _ (by simpa using hj)]
      · rw [mapFind, List.find?_cons_of_neg _ (by simpa using hj),
          mapFind, List.find?_cons_of_neg _ (by simpa using hj)]
        exact ih

lemma keys_mapSet {α β : Type} [DecidableEq α] (k : α) (v : β)
    (m : List (α × β)) :
    (mapSet k v m).map Prod.fst =
      if k ∈ m.map Prod.fst then m.map Prod.fst
      else m.map Prod.fst ++ [k] := by
  induction m with
  | nil => simp [mapSet]
  | cons p rest ih =>
    by_cases hp : p.1 = k
    · simp [mapSet, hp]
    · simp only [mapSet, if_neg hp, List.map_cons, ih]
      by_cases hk : k ∈ rest.map Prod.fst
      · simp [hk, hp, Ne.symm hp]
      · simp [hk, hp, Ne.symm hp]

lemma nodup_keys_mapSet {α β : Type} [DecidableEq α] (k : α) (v : β)
    (m : List (α × β)) (h : (m.map Prod.fst).Nodup) :
    ((mapSet k v m).map Prod.fst).Nodup := by
  rw [keys_mapSet]
  by_cases hk : k ∈ m.map Prod.fst
  · simpa [hk] using h
  · rw [if_neg hk, List.nodup_append]
    refine ⟨h, List.nodup_singleton _, ?_⟩
    intro a ha hb
    rw [List.mem_singleton] at hb
    subst hb
    exact hk ha

lemma getLast?_cons_some {α : Type} {l : List α} {y : α}
    (h : l.getLast? = some y) (a : α) : (a :: l).getLast? = some y := by
  cases l with
  | nil => simp at h
  | cons b t => rw [List.getLast?_cons_cons]; exact h

lemma getLast?_eq_none {α : Type} {l : List α} (h : l.getLast? = none) :
    l = [] := by
  cases l with
  | nil => rfl
  | cons b t =>
    exfalso
    have := List.getLast?_isSome (l := b :: t)
    rw [h] at this
    simp at this

lemma mapFind_foldl_mapSet {α β σ : Type} [DecidableEq α] (g : σ → α × β)
    (l : List σ) :
    ∀ (m : List (α × β)) (k : α),
      mapFind k (l.foldl (fun acc x => mapSet (g x).1 (g x).2 acc) m) =
        ((l.filter fun x => decide ((g x).1 = k)).getLast?).elim (mapFind k m)
          (fun x => some (k, (g x).2)) := by
  induction l with
  | nil => intro m k; rfl
  | cons x rest ih =>
    intro m k
    rw [List.foldl_cons, ih]
    by_cases hk : (g x).1 = k
    · rw [List.filter_cons_of_pos (by simpa using hk)]
      cases hlast : (rest.filter fun y => decide ((g y).1 = k)).getLast? with
      | some y =>
        rw [getLast?_cons_some hlast x]
        rfl
      | none =>
        rw [getLast?_eq_none hlast, List.getLast?_singleton]
        show mapFind k (mapSet (g x).1 (g x).2 m) = some (k, (g x).2)
        rw [← hk]
        exact mapFind_mapSet_self (g x).1 (g x).2 m
    · rw [List.filter_cons_of_neg (by simpa using hk)]
      cases hlast : (rest.filter fun y => decide ((g y).1 = k)).getLast? with
      | some y => rfl
      | none =>
        show mapFind k (mapSet (g x).1 (g x).2 m) = mapFind k m
        exact mapFind_mapSet_other _ m (Ne.symm hk)

lemma nodup_keys_foldl_mapSet {α β σ : Type} [DecidableEq α] (g : σ → α × β)
    (l : List σ) :
    ∀ m : List (α × β), (m.map Prod.fst).Nodup →
      ((l.foldl (fun acc x => mapSet (g x).1 (g x).2 acc) m).map
        Prod.fst).Nodup := by
  induction l with
  | nil => intro m h; exact h
  | cons x rest ih =>
    intro m h
    rw [List.foldl_cons]
    exact ih _ (nodup_keys_mapSet _ _ _ h)

/-- C10.  The normalized per-metric map holds at most one reading per
canonical hour key, and the slot of each key holds exactly the reading
appearing last in the provider's array among those falling in that local
clock hour (earlier same-hour readings are silently overwritten); keys
with no reading are absent. -/
theorem fetchUSACEData_hour_bucket (values : List (ℕ × ℚ)) :
    ((buildDataMap values).map Prod.fst).Nodup ∧
    ∀ k, mapFind k (buildDataMap values) =
      ((values.filter fun tv => decide (hourKey tv.1 = k)).getLast?).elim none
        (fun tv => some (k, (tv.2, tv.1))) := by
  constructor
  · exact nodup_keys_foldl_mapSet
      (fun tv : ℕ × ℚ => (hourKey tv.1, (tv.2, tv.1))) values [] (by simp)
  · intro k
    have h := mapFind_foldl_mapSet
      (fun tv : ℕ × ℚ => (hourKey tv.1, (tv.2, tv.1))) values [] k
    exact h

/-- Witness for C10: two readings from the same local clock hour collapse
to one map entry holding the later array element. -/
theorem fetchUSACEData_hour_bucket_witness :
    ((buildDataMap [(18000000, 5), (18001000, 7)]).map Prod.fst).Nodup ∧
    mapFind 0 (buildDataMap [(18000000, 5), (18001000, 7)]) =
      some (0, (7, 18001000)) := by
  refine ⟨(fetchUSACEData_hour_bucket [(18000000, 5), (18001000, 7)]).1, ?_⟩
  rw [(fetchUSACEData_hour_bucket [(18000000, 5), (18001000, 7)]).2 0]
  norm_num [hourKey]

lemma jsRound_eq_floor (q : ℚ) : jsRound q = ⌊q + 1 / 2⌋ := rfl

/-- C7.  The record assembler emits a record exactly when a water-level
reading exists for the timestamp with value strictly positive; missing,
zero or negative water levels suppress the record (absence of any other
metric never does, since the condition only inspects the water level), and
every emitted record carries that positive water level. -/
theorem assembleRecord_water_level_gate (inp : RawInputs) :
    ((assembleRecord inp).isSome ↔ ∃ v, inp.waterLevel = some v ∧ 0 < v) ∧
    ∀ r, assembleRecord inp = some r → 0 < r.waterLevel := by
  cases hwl : inp.waterLevel with
  | none =>
    constructor
    · simp [assembleRecord, hwl]
    · intro r hr
      simp [assembleRecord, hwl] at hr
  | some wl =>
    by_cases hv : wl ≤ 0
    · constructor
      · simp only [assembleRecord, hwl, if_pos hv]
        constructor
        · intro h; simp at h
        · rintro ⟨v, hv2, hpos⟩
          obtain rfl : wl = v := by injection hv2
          exact absurd hpos (not_lt.mpr hv)
      · intro r hr
        simp [assembleRecord, hwl, if_pos hv] at hr
    · constructor
      · simp only [assembleRecord, hwl, if_neg hv]
        constructor
        · intro _
          exact ⟨wl, rfl, lt_of_not_le hv⟩
        · intro _
          simp
      · intro r hr
        simp only [assembleRecord, hwl, if_neg hv, Option.some.injEq] at hr
        rw [← hr]
        exact lt_of_not_le hv

/-- Witness for C7: a record is emitted for a positive water level. -/
theorem assembleRecord_water_level_gate_witness :
    ((assembleRecord ⟨some 550, none, none, none, none, none, none⟩).isSome ↔
      ∃ v, (some (550 : ℚ)) = some v ∧ 0 < v) :=
  (assembleRecord_water_level_gate ⟨some 550, none, none, none, none, none,
    none⟩).1

/-- C5 (amended).  The stored turbine flow is the clamp
`max(0, totalOutflow − spillwayRelease)` of the raw series values: it
equals their difference when raw outflow is at least raw spillway and 0
otherwise, hence is never negative.  (The original claim's
`totalOutflow ≥ spillwayRelease` for every record is refuted by
`assembleRecord_outflow_counterexample`.) -/
theorem assembleRecord_turbine_clamp (inp : RawInputs) (r : AssembledRecord)
    (h : assembleRecord inp = some r) :
    0 ≤ r.powerHouseDischarge ∧
    r.powerHouseDischarge =
      jsRound (if inp.spillway.getD 0 ≤ inp.outflow.getD 0
        then inp.outflow.getD 0 - inp.spillway.getD 0 else 0) := by
  cases hwl : inp.waterLevel with
  | none => simp [assembleRecord, hwl] at h
  | some wl =>
    by_cases hv : wl ≤ 0
    · simp [assembleRecord, hwl, if_pos hv] at h
    · simp only [assembleRecord, hwl, if_neg hv, Option.some.injEq] at h
      have hpd : r.powerHouseDischarge =
          jsRound (max 0 (inp.outflow.getD 0 - inp.spillway.getD 0)) := by
        rw [← h]
      constructor
      · rw [hpd, jsRound_eq_floor]
        rw [Int.le_floor]
        push_cast
        have := le_max_left (0 : ℚ) (inp.outflow.getD 0 - inp.spillway.getD 0)
        linarith
      · rw [hpd]
        congr 1
        by_cases hle : inp.spillway.getD 0 ≤ inp.outflow.getD 0
        · rw [if_pos hle, max_eq_right (by linarith)]
        · rw [if_neg hle, max_eq_left (by linarith)]

/-- Witness for C5's amended theorem at outflow 300, spillway 100. -/
theorem assembleRecord_turbine_clamp_witness :
    0 ≤ (⟨550, 0, 0, 200, 100, 300, 0, 0, -300, 0⟩ :
      AssembledRecord).powerHouseDischarge :=
  (assembleRecord_turbine_clamp
    ⟨some 550, none, some 300, some 100, none, none, none⟩ _ (by
      simp only [assembleRecord]
      norm_num [jsRound_eq_floor, Int.floor_eq_iff, max_def])).1

/-- C5 counterexample: with the outflow series missing (default 0) and a
spillway reading of 500 at a valid water level, the assembled record
stores totalOutflow 0 and spillwayRelease 500, so the record violates
`totalOutflow ≥ spillwayRelease`. -/
theorem assembleRecord_outflow_counterexample :
    (assembleRecord ⟨some 550, some 0, none, some 500, none, none, none⟩).map
      (fun r => (r.totalOutflow, r.spillwayRelease)) = some (0, 500) ∧
    ¬ ((500 : ℤ) ≤ (0 : ℤ)) := by
  constructor
  · simp only [assembleRecord]
    norm_num [jsRound_eq_floor, Int.floor_eq_iff, max_def]
  · norm_num

/-- C9 (amended).  The `liveStorage` field of every assembled record is
the rounded raw storage-series reading (0 when the series is missing for
the timestamp), not the depth-ratio storage-curve value; the curve
function `calculateLiveStorage` is defined by the source but never called
during record assembly in this revision. -/
theorem assembleRecord_liveStorage_raw (inp : RawInputs) (r : AssembledRecord)
    (h : assembleRecord inp = some r) :
    r.liveStorage = jsRound (inp.storage.getD 0) := by
  cases hwl : inp.waterLevel with
  | none => simp [assembleRecord, hwl] at h
  | some wl =>
    by_cases hv : wl ≤ 0
    · simp [assembleRecord, hwl, if_pos hv] at h
    · simp only [assembleRecord, hwl, if_neg hv, Option.some.injEq] at h
      rw [← h]

/-- Witness for C9's amended theorem at a raw storage reading of 1000. -/
theorem assembleRecord_liveStorage_raw_witness :
    (⟨550, 1000, 0, 0, 0, 0, 0, 0, 0, 0⟩ : AssembledRecord).liveStorage =
      jsRound ((some (1000 : ℚ)).getD 0) :=
  assembleRecord_liveStorage_raw
    ⟨some 550, none, none, none, none, some 1000, none⟩ _ (by
      simp only [assembleRecord]
      norm_num [jsRound_eq_floor, Int.floor_eq_iff, max_def])

lemma damExponent_nonneg (damName : String) : 0 ≤ damExponent damName := by
  rw [damExponent]
  split_ifs <;> norm_num

lemma storagePercentage_boundary (specs : DamSpecN) (damName : String)
    (h0 : (0 : ℝ) < (specs.deadStorageLevel : ℝ))
    (hdf : ((specs.deadStorageLevel : ℚ) : ℝ) < (specs.floodPool : ℝ)) :
    calculateStoragePercentage (specs.deadStorageLevel : ℝ) specs damName = 0 ∧
    calculateStoragePercentage (specs.floodPool : ℝ) specs damName = 100 := by
  constructor
  · rw [calculateStoragePercentage, if_neg (ne_of_gt h0), if_pos (le_refl _)]
  · have hf0 : ((specs.floodPool : ℚ) : ℝ) ≠ 0 := ne_of_gt (lt_trans h0 hdf)
    rw [calculateStoragePercentage, if_neg hf0, if_neg (not_le.mpr hdf),
      if_pos (le_refl _)]
    rw [div_self (by linarith), Real.one_rpow]
    norm_num

lemma storagePercentage_mono (specs : DamSpecN) (damName : String)
    (h0 : (0 : ℝ) < (specs.deadStorageLevel : ℝ))
    (hdf : ((specs.deadStorageLevel : ℚ) : ℝ) < (specs.floodPool : ℝ)) :
    ∀ a b : ℝ, ((specs.deadStorageLevel : ℚ) : ℝ) ≤ a → a ≤ b →
      b ≤ ((specs.floodPool : ℚ) : ℝ) →
      calculateStoragePercentage a specs damName ≤
        calculateStoragePercentage b specs damName := by
  intro a b hda hab hbf
  have ha0 : a ≠ 0 := ne_of_gt (lt_of_lt_of_le h0 hda)
  have hb0 : b ≠ 0 := ne_of_gt (lt_of_lt_of_le h0 (le_trans hda hab))
  rw [calculateStoragePercentage, calculateStoragePercentage, if_neg ha0,
    if_neg hb0]
  by_cases hbd : b ≤ ((specs.deadStorageLevel : ℚ) : ℝ)
  · rw [if_pos (le_trans hab hbd), if_pos hbd]
  · rw [if_neg hbd, if_pos hbf]
    by_cases had : a ≤ ((specs.deadStorageLevel : ℚ) : ℝ)
    · rw [if_pos had]
      exact le_max_left 0 _
    · rw [if_neg had, if_pos (le_trans hab hbf)]
      have hfd : (0 : ℝ) < ((specs.floodPool : ℚ) : ℝ) - specs.deadStorageLevel := by
        linarith
      have hra : (0 : ℝ) ≤
          (a - specs.deadStorageLevel) /
            (((specs.floodPool : ℚ) : ℝ) - specs.deadStorageLevel) :=
        div_nonneg (by linarith) hfd.le
      have hratio :
          (a - specs.deadStorageLevel) /
              (((specs.floodPool : ℚ) : ℝ) - specs.deadStorageLevel) ≤
            (b - specs.deadStorageLevel) /
              (((specs.floodPool : ℚ) : ℝ) - specs.deadStorageLevel) :=
        (div_le_div_iff_of_pos_right hfd).mpr (by linarith)
      have hexp : (0 : ℝ) ≤ ((damExponent damName : ℚ) : ℝ) := by
        exact_mod_cast damExponent_nonneg damName
      have hpow := Real.rpow_le_rpow hra hratio hexp
      exact max_le_max (le_refl 0)
        (min_le_min (le_refl 100) (by nlinarith))

lemma storagePercentage_formula (specs : DamSpecN) (damName : String)
    (h0 : (0 : ℝ) < (specs.deadStorageLevel : ℝ))
    (hdf : ((specs.deadStorageLevel : ℚ) : ℝ) < (specs.floodPool : ℝ))
    (level : ℝ) (hd : ((specs.deadStorageLevel : ℚ) : ℝ) < level)
    (hf : level ≤ ((specs.floodPool : ℚ) : ℝ)) :
    calculateStoragePercentage level specs damName =
      100 * ((level - specs.deadStorageLevel) /
        (((specs.floodPool : ℚ) : ℝ) - specs.deadStorageLevel)) ^
          ((damExponent damName : ℚ) : ℝ) := by
  have hl0 : level ≠ 0 := ne_of_gt (lt_trans h0 hd)
  rw [calculateStoragePercentage, if_neg hl0, if_neg (not_le.mpr hd),
    if_pos hf]
  have hfd : (0 : ℝ) < ((specs.floodPool : ℚ) : ℝ) - specs.deadStorageLevel := by
    linarith
  have hr0 : (0 : ℝ) ≤
      (level - specs.deadStorageLevel) /
        (((specs.floodPool : ℚ) : ℝ) - specs.deadStorageLevel) :=
    div_nonneg (by linarith) hfd.le
  have hr1 :
      (level - specs.deadStorageLevel) /
        (((specs.floodPool : ℚ) : ℝ) - specs.deadStorageLevel) ≤ 1 := by
    rw [div_le_one hfd]
    linarith
  have hexp : (0 : ℝ) ≤ ((damExponent damName : ℚ) : ℝ) := by
    exact_mod_cast damExponent_nonneg damName
  have hp0 := Real.rpow_nonneg hr0 ((damExponent damName : ℚ) : ℝ)
  have hp1 := Real.rpow_le_one hr0 hr1 hexp
  rw [min_eq_right (by nlinarith), max_eq_right (by nlinarith)]
  ring

/-- C4.  For every dam spec in the damSpecs table the storage-percentage
function is 0 at the dead-storage level, 100 at the flood-pool level, is
monotonically non-decreasing on [deadStorageLevel, floodPool], and on the
open-closed in-range interval equals 100 times the depth ratio raised to
the dam's exponent (2.5 for Bull Shoals, 2.3 for Table Rock, 2.2
otherwise, which is the value of `damExponent`). -/
theorem calculateStoragePercentage_curve (damName : String) (specs : DamSpecN)
    (hspec : damSpecsQ damName = some specs) :
    calculateStoragePercentage (specs.deadStorageLevel : ℝ) specs damName = 0 ∧
    calculateStoragePercentage (specs.floodPool : ℝ) specs damName = 100 ∧
    (∀ a b : ℝ, ((specs.deadStorageLevel : ℚ) : ℝ) ≤ a → a ≤ b →
      b ≤ ((specs.floodPool : ℚ) : ℝ) →
      calculateStoragePercentage a specs damName ≤
        calculateStoragePercentage b specs damName) ∧
    (∀ level : ℝ, ((specs.deadStorageLevel : ℚ) : ℝ) < level →
      level ≤ ((specs.floodPool : ℚ) : ℝ) →
      calculateStoragePercentage level specs damName =
        100 * ((level - specs.deadStorageLevel) /
          (((specs.floodPool : ℚ) : ℝ) - specs.deadStorageLevel)) ^
            ((damExponent damName : ℚ) : ℝ)) := by
  have hcond : (0 : ℝ) < (specs.deadStorageLevel : ℝ) ∧
      ((specs.deadStorageLevel : ℚ) : ℝ) < (specs.floodPool : ℝ) := by
    rw [damSpecsQ] at hspec
    split_ifs at hspec
    all_goals obtain rfl := Option.some.inj hspec
    all_goals constructor <;>
      norm_num [norforkSpec, bullshoalsSpec, greersferrySpec, tablerockSpec,
        beaverSpec]
  exact ⟨(storagePercentage_boundary specs damName hcond.1 hcond.2).1,
    (storagePercentage_boundary specs damName hcond.1 hcond.2).2,
    storagePercentage_mono specs damName hcond.1 hcond.2,
    fun level hd hf =>
      storagePercentage_formula specs damName hcond.1 hcond.2 level hd hf⟩

/-- Witness for C4 at the Norfork spec: the boundary values hold. -/
theorem calculateStoragePercentage_curve_witness :
    damSpecsQ "norfork" = some norforkSpec ∧
    calculateStoragePercentage (norforkSpec.deadStorageLevel : ℝ) norforkSpec
      "norfork" = 0 ∧
    calculateStoragePercentage (norforkSpec.floodPool : ℝ) norforkSpec
      "norfork" = 100 := by
  have h := calculateStoragePercentage_curve "norfork" norforkSpec rfl
  exact ⟨rfl, h.1, h.2.1⟩

lemma calculateLiveStorage_in_range (specs : DamSpecN) (damName : String)
    (h0 : (0 : ℝ) < (specs.deadStorageLevel : ℝ)) (level : ℝ)
    (hd : ((specs.deadStorageLevel : ℚ) : ℝ) < level)
    (hf : level ≤ ((specs.floodPool : ℚ) : ℝ)) :
    calculateLiveStorage level specs damName =
      jsRoundR ((floodPoolStorageZ damName : ℝ) *
        ((level - specs.deadStorageLevel) /
          (((specs.floodPool : ℚ) : ℝ) - specs.deadStorageLevel)) ^
            ((damExponent damName : ℚ) : ℝ)) := by
  have hl0 : level ≠ 0 := ne_of_gt (lt_trans h0 hd)
  rw [calculateLiveStorage, if_neg hl0, if_neg (not_le.mpr hd), if_pos hf]

/-- C9 counterexample: at water level 550 with a raw storage-series
reading of 1000, the assembled record stores liveStorage 1000, while the
Norfork depth-ratio storage curve at level 550 is at least 1500000 — the
persisted field does not follow the curve. -/
theorem liveStorage_not_curve_counterexample :
    (assembleRecord ⟨some 550, none, none, none, none, some 1000, none⟩).map
      (fun r => r.liveStorage) = some 1000 ∧
    1500000 ≤ calculateLiveStorage 550 norforkSpec "norfork" := by
  constructor
  · simp only [assembleRecord]
    norm_num [jsRound_eq_floor, Int.floor_eq_iff, max_def]
  · rw [calculateLiveStorage_in_range norforkSpec "norfork"
      (by norm_num [norforkSpec]) 550 (by norm_num [norforkSpec])
      (by norm_num [norforkSpec])]
    rw [jsRoundR, Int.le_floor]
    have hbase : ((550 : ℝ) - (norforkSpec.deadStorageLevel : ℚ)) /
        (((norforkSpec.floodPool : ℚ) : ℝ) - norforkSpec.deadStorageLevel) =
        17 / 20 := by
      norm_num [norforkSpec]
    rw [hbase]
    have hexpq : damExponent "norfork" = 11 / 5 := by
      rw [damExponent, if_neg (by decide), if_neg (by decide)]
    have hexp : ((damExponent "norfork" : ℚ) : ℝ) = 11 / 5 := by
      rw [hexpq]
      norm_num
    rw [hexp]
    have hstz : floodPoolStorageZ "norfork" = 2580000 := by
      rw [floodPoolStorageZ, if_neg (by decide), if_neg (by decide),
        if_neg (by decide), if_neg (by decide)]
    have hst : ((floodPoolStorageZ "norfork" : ℤ) : ℝ) = 2580000 := by
      rw [hstz]
      norm_num
    rw [hst]
    have h3 : ((17 : ℝ) / 20) ^ ((3 : ℕ) : ℝ) ≤ ((17 : ℝ) / 20) ^ ((11 : ℝ) / 5) :=
      Real.rpow_le_rpow_of_exponent_ge (by norm_num) (by norm_num) (by norm_num)
    rw [Real.rpow_natCast] at h3
    have h3v : ((17 : ℝ) / 20) ^ (3 : ℕ) = 4913 / 8000 := by norm_num
    rw [h3v] at h3
    push_cast
    nlinarith [h3]

lemma mem_mapSet {α β : Type} [DecidableEq α] {k : α} {v : β}
    {m : List (α × β)} {pr : α × β} (h : pr ∈ mapSet k v m) :
    pr = (k, v) ∨ pr ∈ m := by
  induction m with
  | nil => simpa [mapSet] using h
  | cons p rest ih =>
    by_cases hp : p.1 = k
    · simp only [mapSet, if_pos hp] at h
      rcases List.mem_cons.mp h with rfl | hmem
      · exact Or.inl rfl
      · exact Or.inr (List.mem_cons_of_mem _ hmem)
    · simp only [mapSet, if_neg hp] at h
      rcases List.mem_cons.mp h with rfl | hmem
      · exact Or.inr (List.mem_cons_self _ _)
      · rcases ih hmem with h1 | h2
        · exact Or.inl h1
        · exact Or.inr (List.mem_cons_of_mem _ h2)

lemma foldl_mapSet_invariant {α β σ : Type} [DecidableEq α] (g : σ → α × β)
    (P : α × β → Prop) (hg : ∀ x, P ((g x).1, (g x).2)) (l : List σ) :
    ∀ m : List (α × β), (∀ pr ∈ m, P pr) →
      ∀ pr ∈ l.foldl (fun acc x => mapSet (g x).1 (g x).2 acc) m, P pr := by
  induction l with
  | nil => intro m hm; exact hm
  | cons x rest ih =>
    intro m hm
    rw [List.foldl_cons]
    refine ih _ ?_
    intro pr hpr
    rcases mem_mapSet hpr with rfl | hmem
    · exact hg x
    · exact hm pr hmem

lemma filter_key_nodup {α κ : Type} [DecidableEq κ] (f : α → κ) (l : List α)
    (hn : (l.map f).Nodup) (x : α) (hx : x ∈ l) :
    l.filter (fun y => decide (f y = f x)) = [x] := by
  induction l with
  | nil => cases hx
  | cons a rest ih =>
    rw [List.map_cons, List.nodup_cons] at hn
    rcases List.mem_cons.mp hx with rfl | hmem
    · rw [List.filter_cons_of_pos (by simp)]
      have hrest : rest.filter (fun y => decide (f y = f x)) = [] := by
        rw [List.filter_eq_nil_iff]
        intro a ha
        simp only [decide_eq_true_eq]
        intro hfa
        exact hn.1 (hfa ▸ List.mem_map_of_mem f ha)
      rw [hrest]
    · have hne : f a ≠ f x := by
        intro he
        exact hn.1 (he ▸ List.mem_map_of_mem f hmem)
      rw [List.filter_cons_of_neg (by simp [hne])]
      exact ih hn.2 hmem

lemma snapshotOf_id (d : LiveDam) : (snapshotOf d).id = d.id := rfl

lemma take_one_eq_head {α : Type} (l : List α) (h : l ≠ []) :
    l.take 1 = [l.head h] := by
  cases l with
  | nil => exact absurd rfl h
  | cons a t => rfl

/-- C8.  The published live snapshot holds, for every dam refreshed this
run, exactly one entry, whose data array is the single newest record of
that dam's run output; every previous snapshot entry whose dam was not
refreshed is carried over unchanged; and the snapshot has at most one
entry per dam id. -/
theorem buildLive_snapshot (existingDams dams : List LiveDam)
    (hex : (existingDams.map LiveDam.id).Nodup)
    (hnew : (dams.map LiveDam.id).Nodup) :
    (∀ d ∈ dams, snapshotOf d ∈ buildLive existingDams dams ∧
      ∀ h : d.data ≠ [], (snapshotOf d).data = [d.data.head h]) ∧
    (∀ e ∈ existingDams, e.id ∉ dams.map LiveDam.id →
      e ∈ buildLive existingDams dams) ∧
    ((buildLive existingDams dams).map LiveDam.id).Nodup := by
  have hsnapids : ((dams.map snapshotOf).map LiveDam.id) = dams.map LiveDam.id := by
    rw [List.map_map]
    rfl
  have hperm := List.mergeSort_perm
    (((dams.map snapshotOf).foldl (fun acc d => mapSet d.id d acc)
      (existingDams.foldl (fun acc d => mapSet d.id d acc) [])).map Prod.snd)
    (fun a b => decide (a.id ≤ b.id))
  have hmem_build : ∀ z : LiveDam,
      z ∈ ((dams.map snapshotOf).foldl (fun acc d => mapSet d.id d acc)
        (existingDams.foldl (fun acc d => mapSet d.id d acc) [])).map
          Prod.snd →
      z ∈ buildLive existingDams dams := by
    intro z hz
    rw [buildLive]
    exact hperm.mem_iff.mpr hz
  refine ⟨?_, ?_, ?_⟩
  · intro d hd
    refine ⟨?_, ?_⟩
    · have hfind := mapFind_foldl_mapSet (fun d : LiveDam => (d.id, d))
        (dams.map snapshotOf)
        (existingDams.foldl (fun acc d => mapSet d.id d acc) []) d.id
      have hfilter : ((dams.map snapshotOf).filter
          fun y => decide (y.id = d.id)) = [snapshotOf d] := by
        have := filter_key_nodup LiveDam.id (dams.map snapshotOf)
          (by rw [hsnapids]; exact hnew) (snapshotOf d)
          (List.mem_map_of_mem snapshotOf hd)
        rw [snapshotOf_id] at this
        exact this
      rw [hfilter] at hfind
      simp only [List.getLast?_singleton, Option.elim_some] at hfind
      have hmem1 : (d.id, snapshotOf d) ∈
          (dams.map snapshotOf).foldl (fun acc d => mapSet d.id d acc)
            (existingDams.foldl (fun acc d => mapSet d.id d acc) []) :=
        List.mem_of_find?_eq_some hfind
      exact hmem_build _ (List.mem_map_of_mem Prod.snd hmem1)
    · intro h
      show d.data.take 1 = [d.data.head h]
      exact take_one_eq_head d.data h
  · intro e he hid
    have hfind0 := mapFind_foldl_mapSet (fun d : LiveDam => (d.id, d))
      existingDams ([] : List (ℕ × LiveDam)) e.id
    have hfilter0 : (existingDams.filter fun y => decide (y.id = e.id)) =
        [e] := filter_key_nodup LiveDam.id existingDams hex e he
    rw [hfilter0] at hfind0
    simp only [List.getLast?_singleton, Option.elim_some] at hfind0
    have hfind1 := mapFind_foldl_mapSet (fun d : LiveDam => (d.id, d))
      (dams.map snapshotOf)
      (existingDams.foldl (fun acc d => mapSet d.id d acc) []) e.id
    have hfilter1 : ((dams.map snapshotOf).filter
        fun y => decide (y.id = e.id)) = [] := by
      rw [List.filter_eq_nil_iff]
      intro a ha
      simp only [decide_eq_true_eq]
      intro hae
      obtain ⟨d, hd, rfl⟩ := List.mem_map.mp ha
      rw [snapshotOf_id] at hae
      exact hid (hae ▸ List.mem_map_of_mem LiveDam.id hd)
    rw [hfilter1] at hfind1
    simp only [List.getLast?_nil, Option.elim_none] at hfind1
    rw [hfind0] at hfind1
    have hmem1 : (e.id, e) ∈
        (dams.map snapshotOf).foldl (fun acc d => mapSet d.id d acc)
          (existingDams.foldl (fun acc d => mapSet d.id d acc) []) :=
      List.mem_of_find?_eq_some hfind1
    exact hmem_build _ (List.mem_map_of_mem Prod.snd hmem1)
  · have hkeys : (((dams.map snapshotOf).foldl
        (fun acc d => mapSet d.id d acc)
        (existingDams.foldl (fun acc d => mapSet d.id d acc) [])).map
          Prod.fst).Nodup := by
      apply nodup_keys_foldl_mapSet (fun d : LiveDam => (d.id, d))
      apply nodup_keys_foldl_mapSet (fun d : LiveDam => (d.id, d))
      simp
    have hinv := foldl_mapSet_invariant (fun d : LiveDam => (d.id, d))
      (fun pr => pr.2.id = pr.1) (fun x => rfl) (dams.map snapshotOf)
      (existingDams.foldl (fun acc d => mapSet d.id d acc) [])
      (foldl_mapSet_invariant (fun d : LiveDam => (d.id, d))
        (fun pr => pr.2.id = pr.1) (fun x => rfl) existingDams []
        (by intro pr hpr; cases hpr))
    have hids : (((dams.map snapshotOf).foldl
        (fun acc d => mapSet d.id d acc)
        (existingDams.foldl (fun acc d => mapSet d.id d acc) [])).map
          Prod.snd).map LiveDam.id =
        ((dams.map snapshotOf).foldl (fun acc d => mapSet d.id d acc)
          (existingDams.foldl (fun acc d => mapSet d.id d acc) [])).map
            Prod.fst := by
      rw [List.map_map]
      exact List.map_congr_left fun pr hpr => hinv pr hpr
    have hpm : List.Perm ((buildLive existingDams dams).map LiveDam.id)
        ((((dams.map snapshotOf).foldl (fun acc d => mapSet d.id d acc)
          (existingDams.foldl (fun acc d => mapSet d.id d acc) [])).map
            Prod.snd).map LiveDam.id) := by
      rw [buildLive]
      exact hperm.map LiveDam.id
    rw [hids] at hpm
    exact hpm.nodup_iff.mpr hkeys

/-- Witness for C8: the refreshed dam's single-newest-record entry is
published and the unrefreshed dam's previous entry is carried over. -/
theorem buildLive_snapshot_witness :
    snapshotOf liveA ∈ buildLive [liveB] [liveA] ∧
    liveB ∈ buildLive [liveB] [liveA] ∧
    (snapshotOf liveA).data = [⟨"tA2", []⟩] := by
  have h := buildLive_snapshot [liveB] [liveA] (by simp) (by simp)
  refine ⟨(h.1 liveA (by simp)).1, h.2.1 liveB (by simp) ?_, ?_⟩
  · simp [liveA, liveB]
  · have := (h.1 liveA (by simp)).2 (by simp [liveA])
    rw [this]
    simp [liveA]

end WhiteRiver
